import Mathlib

/-!
Verification model of `src/lib/main.js`, the `Flint` class of the steel-flint
Atom package: project-path handling (`handlePaths`), connection lifecycle and
message routing (`handleConnection`), document lookup (`getConnectionByPath`,
editor bindings) and `dispose`.

The JavaScript code is shallowly embedded: the mutable fields of a `Flint`
instance become a `St` record, JS `Map`s become insertion-ordered association
lists (JS `Map` preserves insertion order; `set` on an existing key keeps the
position), and the asynchronous parts (the creation promises spawned through
the `did-add-project` emitter) become explicit pending tasks that a small-step
event semantics completes. External collaborators that live outside `src/`
(the `realPath`/`fileExists` helpers, the `Connection` transport, the linter
sink) are modelled as an environment of pure functions plus an output log of
the calls made into them.
-/

namespace Flint

/-- Location carried by a compiler error descriptor: 1-based `line`/`column`
(JS numbers, embedded as integers). -/
structure Loc where
  line : Int
  column : Int
deriving DecidableEq, Repr

/-- The `message.error` descriptor of a `compile:error` message: an optional
`loc`, plus `message`, `stack` and `fileName` fields. -/
structure ErrDesc where
  loc : Option Loc
  message : String
  stack : String
  fileName : String
deriving DecidableEq, Repr

/-- The diagnostic object built in the `compile:error` handler of
`handleConnection` and passed to `linter.setError`. -/
structure Diagnostic where
  type : String
  text : String
  filePath : String
  range : (Int × Int) × (Int × Int)
deriving DecidableEq, Repr

/-- A Connection handle. Modelled from the spec: `src/lib/connection.js` is
not under `src/`; per spec section 6 the transport exposes `getPath()` (the
root path the connection was created with) and identity. `id` numbers the
`Connection` objects in creation order so distinct objects stay distinct. -/
structure Conn where
  id : Nat
  rootPath : String
deriving DecidableEq, Repr

/-- Inbound messages routed by `handleConnection` (the `file:meta` kind only
touches editor wrappers, not the linter, and is not needed by the claims). -/
inductive Msg where
  | compileError (error : ErrDesc)
  | compileSuccess (path : String)
deriving DecidableEq, Repr

/-- One call made into an external collaborator (linter sink, error surface,
console, connection teardown), recorded in order. `connDiscard` marks the
`connections.delete` that drops the object after `destroy()`. -/
inductive LogE where
  | linterRegister (connId : Nat)
  | linterUnregister (connId : Nat)
  | linterSetError (connId : Nat) (filePath : String) (diag : Option Diagnostic)
  | showError (msg stack : String)
  | consoleError (msg : String)
  | connDestroy (connId : Nat)
  | connDiscard (connId : Nat)
deriving DecidableEq, Repr

/-- External world. Modelled from the spec: `realPath`, `fileExists` and
`Connection.create` live outside `src/`. `realPathOf` resolves a project root
to its canonical path and may reject; `realIdem` states that canonical paths
are fixed points of resolution (what canonical means, spec section 2,
PathResolver). `fileExists` is the marker-file check (its `false` second
argument in the source makes it resolve to a boolean instead of rejecting).
`createOk` tells whether transport establishment for a root succeeds.
`getMessage` is the external message-formatting helper. -/
structure Env where
  realPathOf : String → Except String String
  realIdem : ∀ p r, realPathOf p = Except.ok r → realPathOf r = Except.ok r
  fileExists : String → Bool
  createOk : String → Bool
  getMessage : ErrDesc → String

/-- The mutable state of a `Flint` instance. `connections` and `editors` are
the two JS `Map`s; `conns` lists every `Connection` object ever created;
`destroyed` the ids whose `destroy()` ran; `linterConns` the ids currently
registered with the linter; `pending` the spawned but unsettled creation
promises (by raw project path, spawn order); `config` is the field that no
constructor or method assigns; `log` the calls into collaborators. -/
structure St where
  connections : List (String × Conn)
  editors : List (Nat × Nat)
  conns : List Conn
  destroyed : List Nat
  linterConns : List Nat
  pending : List String
  nextId : Nat
  config : Option Unit
  subscriptionsDisposed : Bool
  log : List LogE
deriving DecidableEq, Repr

/-- State produced by the constructor: empty maps, no `config`. -/
def flintInit : St :=
  { connections := [], editors := [], conns := [], destroyed := [],
    linterConns := [], pending := [], nextId := 0, config := none,
    subscriptionsDisposed := false, log := [] }

/-- `path.join` of the source, specialised to the forward-slash form used for
the marker file. -/
def joinPath (a b : String) : String := a ++ "/" ++ b

/-- `joinPath(realPath, ".flint", ".internal", "state.json")`. -/
def configPathOf (root : String) : String :=
  joinPath (joinPath (joinPath root ".flint") ".internal") "state.json"

/-- `path.indexOf(root) === 0` of the source: the first occurrence of `root`
in `path` is at position 0, i.e. `root` is a raw string prefix of `path`
(embedded over the character lists so it evaluates in the kernel). -/
def strIsPrefixOf (p s : String) : Bool := p.data.isPrefixOf s.data

/-- JS `Map.prototype.has`. -/
def mapHas {κ α : Type} [BEq κ] (m : List (κ × α)) (k : κ) : Bool :=
  m.any (fun e => e.1 == k)

/-- JS `Map.prototype.get`. -/
def mapGet {κ α : Type} [BEq κ] (m : List (κ × α)) (k : κ) : Option α :=
  (m.find? (fun e => e.1 == k)).map (fun e => e.2)

/-- JS `Map.prototype.set`: replaces in place when the key exists (keeping
insertion order), appends otherwise. -/
def mapSet {κ α : Type} [BEq κ] (m : List (κ × α)) (k : κ) (v : α) : List (κ × α) :=
  if mapHas m k then m.map (fun e => if e.1 == k then (k, v) else e)
  else m ++ [(k, v)]

/-- JS `Map.prototype.delete`. -/
def mapDelete {κ α : Type} [BEq κ] (m : List (κ × α)) (k : κ) : List (κ × α) :=
  m.filter (fun e => e.1 != k)

/-- Keys of a map, in insertion order. -/
def keysOf {κ α : Type} (m : List (κ × α)) : List κ := m.map Prod.fst

/-- `handleConnection(path, connection)`: stores the connection under its
(real) path, registers it with the linter, and registers the `onDidDestroy`
handler that will unregister it (that handler is run by `destroyConn` below).
The fresh `Connection` object carries the next id. -/
def handleConnection (st : St) (path : String) : St :=
  let c : Conn := { id := st.nextId, rootPath := path }
  { st with connections := mapSet st.connections path c,
            conns := st.conns ++ [c],
            linterConns := st.linterConns ++ [c.id],
            nextId := st.nextId + 1,
            log := st.log ++ [LogE.linterRegister c.id] }

/-- `connection.destroy()`. Modelled from the spec: the `Connection` class is
not under `src/`; per spec sections 3/4.2 destruction synchronously fires the
`onDidDestroy` handlers, and the handler installed by `handleConnection`
unregisters the connection from the linter. -/
def destroyConn (st : St) (c : Conn) : St :=
  { st with destroyed := st.destroyed ++ [c.id],
            linterConns := st.linterConns.filter (fun i => i ≠ c.id),
            log := st.log ++ [LogE.connDestroy c.id, LogE.linterUnregister c.id] }

/-- One iteration of the removal loop of `handlePaths`: if `oldPath` is no
longer in `paths` (`paths.indexOf(oldPath) === -1`), destroy its connection
and delete the map entry. -/
def removeOne (paths : List String) (st : St) (oldPath : String) : St :=
  if paths.contains oldPath then st
  else
    match mapGet st.connections oldPath with
    | some oldC =>
        let st1 := destroyConn st oldC
        { st1 with connections := mapDelete st1.connections oldPath,
                   log := st1.log ++ [LogE.connDiscard oldC.id] }
    | none => st

/-- The removal loop of `handlePaths`, iterating the keys present when the
loop starts (no insertions happen during the loop, so iterating the snapshot
matches the live JS `Map` iterator). -/
def removeDeleted (st : St) (paths : List String) : St :=
  (keysOf st.connections).foldl (removeOne paths) st

/-- The paths for which the add loop of `handlePaths` emits `did-add-project`:
those not already keys of `connections` (checked against the raw, unresolved
path). -/
def newProjects (st : St) (paths : List String) : List String :=
  paths.filter (fun p => !(mapHas st.connections p))

/-- The body of the promise pushed by the `onDidAddProject` subscriber in
`activate` for one added path, run at settlement time: resolve the real path
(a rejection here rejects the pushed promise and performs no effect), check
the marker file, and on success create the connection and run
`handleConnection`; a transport failure is logged and swallowed. -/
def runCreation (env : Env) (st : St) (p : String) : St × Option String :=
  match env.realPathOf p with
  | Except.error e => (st, some e)
  | Except.ok r =>
      if env.fileExists (configPathOf r) then
        if env.createOk r then (handleConnection st r, none)
        else ({ st with log := st.log ++ [LogE.consoleError "Flint channel creation failed"] },
              none)
      else (st, none)

/-- State effect of settling a list of spawned creations, in spawn order. -/
def runCreationsSt (env : Env) (st : St) (ps : List String) : St :=
  ps.foldl (fun s p => (runCreation env s p).1) st

/-- Settlement results of the pushed promises (`some` = rejection); these are
independent of the state. -/
def creationResults (env : Env) (ps : List String) : List (Option String) :=
  ps.map (fun p =>
    match env.realPathOf p with
    | Except.error e => some e
    | Except.ok _ => none)

/-- `Promise.all`: the first rejection, if any. -/
def firstRejection : List (Option String) → Option String
  | [] => none
  | some e :: _ => some e
  | none :: rest => firstRejection rest

/-- One `handlePaths(paths)` invocation together with the settlement of the
creation promises it spawned (valid when invocations are serialized): add
loop first (spawning), then the synchronous removal loop, then the spawned
creations settle; finally `Promise.all(promises).catch(e => console.error(e))`
turns any rejection into a console log and a resolved promise. -/
def handlePaths (env : Env) (st : St) (paths : List String) : St × Option String :=
  let spawned := newProjects st paths
  let st1 := removeDeleted st paths
  let st2 := runCreationsSt env st1 spawned
  match firstRejection (creationResults env spawned) with
  | some e => ({ st2 with log := st2.log ++ [LogE.consoleError e] }, none)
  | none => (st2, none)

/-- A serialized sequence of `handlePaths` calls starting from a fresh
instance: each call settles fully before the next one runs. -/
def runPathBatches (env : Env) (batches : List (List String)) : St :=
  batches.foldl (fun s b => (handlePaths env s b).1) flintInit

/-- Actions the `compile:error` handler performs on its sinks. -/
inductive RAction where
  | setErr (filePath : String) (diag : Option Diagnostic)
  | showErr (msg stack : String)
deriving DecidableEq, Repr

/-- The `compile:error` handler of `handleConnection`: without `loc` the
descriptor goes to the generic error surface with message and stack; with
`loc` it becomes a linter diagnostic of type `Error` at
`[[line-1, column-1], [line-1, column]]` on `error.fileName`. -/
def routeCompileError (env : Env) (e : ErrDesc) : List RAction :=
  match e.loc with
  | none => [RAction.showErr ("[Compiler-Error] " ++ e.message) e.stack]
  | some l =>
      [RAction.setErr e.fileName
        (some { type := "Error", text := env.getMessage e, filePath := e.fileName,
                range := ((l.line - 1, l.column - 1), (l.line - 1, l.column)) })]

/-- Apply one routed action for connection `connId` to the log. -/
def applyAction (connId : Nat) (st : St) : RAction → St
  | RAction.setErr fp d => { st with log := st.log ++ [LogE.linterSetError connId fp d] }
  | RAction.showErr m s => { st with log := st.log ++ [LogE.showError m s] }

/-- Dispatch of one inbound message on a connection, as wired by
`handleConnection`: `compile:error` routes through `routeCompileError`;
`compile:success` clears the diagnostic (`linter.setError(connection,
message.path, null)`). -/
def handleMessage (env : Env) (st : St) (connId : Nat) : Msg → St
  | Msg.compileError e => (routeCompileError env e).foldl (applyAction connId) st
  | Msg.compileSuccess p => { st with log := st.log ++ [LogE.linterSetError connId p none] }

/-- A connection can still receive messages: it was created and its
`destroy()` has not run (modelled from the spec: the transport and its
message stream are torn down by destruction, spec sections 3/4.3). -/
def isLive (st : St) (connId : Nat) : Bool :=
  st.conns.any (fun c => c.id == connId) && !(st.destroyed.contains connId)

/-- `getConnectionByPath(path)`: the for-of loop over `connections.values()`
returning the first connection with `path.indexOf(connection.getPath()) === 0`,
that is, the first whose root path is a raw string prefix of `path`. -/
def getConnectionByPath : List (String × Conn) → String → Option Conn
  | [], _ => none
  | (_, c) :: rest, path =>
      if strIsPrefixOf c.rootPath path then some c else getConnectionByPath rest path

/-- The `observeTextEditors` callback of `activate`: look up a connection for
the document path; if one is found, create the `Editor` wrapper and store it
in the `editors` map (keyed by the native editor, here `docId`). -/
def observeEditor (st : St) (docId : Nat) (path : String) : St :=
  match getConnectionByPath st.connections path with
  | some c => { st with editors := mapSet st.editors docId c.id }
  | none => st

/-- The `editor.onDidDestroy` callback: the binding is dropped from the
`editors` map when the document closes. -/
def destroyEditor (st : St) (docId : Nat) : St :=
  { st with editors := mapDelete st.editors docId }

/-- Events of the small-step semantics. `pathsChanged` is the delivery of an
`atom.project.onDidChangePaths` notification: `activate` runs
`pathsQueue.then(() => this.handlePaths(paths))` but never reassigns
`pathsQueue`, so every notification is gated on the initial, already resolved
promise and the synchronous part of `handlePaths` runs at delivery time,
whether or not earlier creation promises are still pending. `complete i`
settles the i-th pending creation promise (IO completions can arrive in any
order). -/
inductive Event where
  | pathsChanged (paths : List String)
  | complete (i : Nat)
  | openDoc (docId : Nat) (path : String)
  | closeDoc (docId : Nat)
  | message (connId : Nat) (msg : Msg)

/-- The synchronous part of one `handlePaths` call: spawn creations for the
new paths, then run the removal loop. -/
def handlePathsStart (st : St) (paths : List String) : St :=
  let st1 := { st with pending := st.pending ++ newProjects st paths }
  removeDeleted st1 paths

/-- One step of the event semantics. -/
def step (env : Env) (st : St) : Event → St
  | Event.pathsChanged paths => handlePathsStart st paths
  | Event.complete i =>
      match st.pending.get? i with
      | some p => (runCreation env { st with pending := st.pending.eraseIdx i } p).1
      | none => st
  | Event.openDoc d path => observeEditor st d path
  | Event.closeDoc d => destroyEditor st d
  | Event.message c m => if isLive st c then handleMessage env st c m else st

/-- Run a trace of events on a fresh instance. -/
def runTrace (env : Env) (t : List Event) : St :=
  t.foldl (step env) flintInit

/-- `dispose()`: `this.config.clear()` runs first; `config` is never
assigned, so on every reachable state this dereferences `undefined` and
throws a `TypeError` before `editors.clear()` and `subscriptions.dispose()`
run. The (unreachable) success branch performs the two remaining calls. -/
def dispose (st : St) : Except String St :=
  match st.config with
  | none => Except.error "TypeError"
  | some _ => Except.ok { st with editors := [], subscriptionsDisposed := true }

/-- The set of canonical resolved paths of the members of `paths` whose
marker file `.flint/.internal/state.json` is present, as a list: the key set
the spec says the registry converges to. -/
def markerPaths (env : Env) (paths : List String) : List String :=
  paths.filterMap (fun p =>
    match env.realPathOf p with
    | Except.ok r => if env.fileExists (configPathOf r) then some r else none
    | Except.error _ => none)

/-- Two string lists carry the same set of elements. -/
def sameKeySet (a b : List String) : Bool :=
  a.all (fun k => b.contains k) && b.all (fun k => a.contains k)

/-- The canonical roots actually registered when the creations spawned for
`ps` settle: resolution succeeded, the marker file exists and transport
establishment succeeded. -/
def createdPaths (env : Env) (ps : List String) : List String :=
  ps.filterMap (fun p =>
    match env.realPathOf p with
    | Except.ok r =>
        if env.fileExists (configPathOf r) && env.createOk r then some r else none
    | Except.error _ => none)

/-- Registry key invariant: every key is a canonical path (a fixed point of
resolution) whose marker file exists. -/
def KInv (env : Env) (s : St) : Prop :=
  ∀ k ∈ keysOf s.connections,
    env.realPathOf k = Except.ok k ∧ env.fileExists (configPathOf k) = true

/-- Number of live (created, never destroyed) connections whose root is `r`. -/
def liveConnsAt (st : St) (r : String) : Nat :=
  (st.conns.filter (fun c => c.rootPath == r && !(st.destroyed.contains c.id))).length

/-- A concrete environment: resolution is the identity, the marker file
exists exactly for the project root `/a`, and transport creation succeeds. -/
def env0 : Env :=
  { realPathOf := fun s => Except.ok s,
    realIdem := fun _ _ _ => rfl,
    fileExists := fun s => s == "/a/.flint/.internal/state.json",
    createOk := fun _ => true,
    getMessage := fun e => e.message }

/-- A resolution function with one alias: `/sym` resolves to `/real`. -/
def canon3 (s : String) : String := if s == "/sym" then "/real" else s

/-- Environment where `/sym` and `/real` denote the same project root, its
marker file exists, and creation succeeds. -/
def env3 : Env :=
  { realPathOf := fun s => Except.ok (canon3 s),
    realIdem := fun p r h => by
      injection h with h2
      subst h2
      refine congrArg Except.ok ?_
      unfold canon3
      by_cases hp : (p == "/sym") = true
      · simp [hp]
      · simp [hp],
    fileExists := fun s => s == "/real/.flint/.internal/state.json",
    createOk := fun _ => true,
    getMessage := fun e => e.message }

/-- Environment where every root has its marker file but transport
establishment always fails. -/
def envCx : Env :=
  { realPathOf := fun s => Except.ok s,
    realIdem := fun _ _ _ => rfl,
    fileExists := fun _ => true,
    createOk := fun _ => false,
    getMessage := fun e => e.message }

/-- A reachable state with one live connection rooted at `/a` (id 0). -/
def sDemo : St := runTrace env0 [Event.pathsChanged ["/a"], Event.complete 0]

/-- A state holding exactly one connection, rooted at `/root` (id 0), for the
document-binding example of the spec. -/
def sRoot : St :=
  { flintInit with connections := [("/root", { id := 0, rootPath := "/root" })],
                   conns := [{ id := 0, rootPath := "/root" }],
                   linterConns := [0], nextId := 1 }

/-- The diagnostic record the `compile:error` handler builds from a
descriptor whose `loc` is 1-based `(l, c)`. -/
def positionedDiag (env : Env) (e : ErrDesc) (l c : Int) : Diagnostic :=
  { type := "Error", text := env.getMessage e, filePath := e.fileName,
    range := ((l - 1, c - 1), (l - 1, c)) }

/-- The set of connection ids whose `destroy()` appears in a log suffix,
accumulated onto `d`. -/
def deadSet : List Nat → List LogE → List Nat
  | d, [] => d
  | d, LogE.connDestroy c :: rest => deadSet (c :: d) rest
  | d, _ :: rest => deadSet d rest

/-- The set of connection ids unregistered from the linter in a log suffix,
accumulated onto `u`. -/
def unregSet : List Nat → List LogE → List Nat
  | u, [] => u
  | u, LogE.linterUnregister c :: rest => unregSet (c :: u) rest
  | u, _ :: rest => unregSet u rest

/-- Scans a log (with `d` the ids already destroyed before it): `true` iff no
`setError` call targets a connection destroyed earlier in the log. -/
def setErrorOk : List Nat → List LogE → Bool
  | _, [] => true
  | d, LogE.linterSetError c _ _ :: rest => !(d.contains c) && setErrorOk d rest
  | d, LogE.connDestroy c :: rest => setErrorOk (c :: d) rest
  | d, _ :: rest => setErrorOk d rest

/-- Scans a log (with `u` the ids already unregistered before it): `true` iff
every map discard of a connection object is preceded by its linter
unregistration. -/
def discardOk : List Nat → List LogE → Bool
  | _, [] => true
  | u, LogE.linterUnregister c :: rest => discardOk (c :: u) rest
  | u, LogE.connDiscard c :: rest => u.contains c && discardOk u rest
  | u, _ :: rest => discardOk u rest

/-- Safety invariant of reachable states: connection ids in the map are
fresh-bounded, destroyed ids are bounded and never linter-registered, the
log's destroy entries agree with the `destroyed` set, no `setError` call in
the log follows the destruction of its connection, and every discard follows
the matching unregistration. -/
structure SafetyInv (s : St) : Prop where
  connBound : ∀ e ∈ s.connections, (e : String × Conn).2.id < s.nextId
  destBound : ∀ i ∈ s.destroyed, i < s.nextId
  disj : ∀ i ∈ s.destroyed, i ∉ s.linterConns
  deadEq : ∀ i, i ∈ deadSet [] s.log ↔ i ∈ s.destroyed
  seOk : setErrorOk [] s.log = true
  dOk : discardOk [] s.log = true

/-! Helper lemmas. -/

theorem contains_iff {α : Type} [BEq α] [LawfulBEq α] {l : List α} {a : α} :
    l.contains a = true ↔ a ∈ l :=
  List.elem_iff

/-- Every connection returned by the lookup has its root path as a raw
string prefix of the document path. -/
theorem getConnectionByPath_rootMatch :
    ∀ (conns : List (String × Conn)) (path : String) (c : Conn),
      getConnectionByPath conns path = some c → strIsPrefixOf c.rootPath path = true := by
  intro conns path c
  induction conns with
  | nil => intro h; exact absurd h (by simp [getConnectionByPath])
  | cons e rest ih =>
      obtain ⟨k, c0⟩ := e
      intro h
      rw [getConnectionByPath] at h
      by_cases hp : strIsPrefixOf c0.rootPath path = true
      · rw [if_pos hp] at h
        cases h
        exact hp
      · rw [if_neg hp] at h
        exact ih h

/-- The lookup returns the first matching connection in map insertion
order: a matching connection preceded only by non-matching entries wins. -/
theorem getConnectionByPath_firstMatch :
    ∀ (pre : List (String × Conn)) (k : String) (c : Conn) (post : List (String × Conn))
      (path : String),
      (∀ e ∈ pre, strIsPrefixOf (e : String × Conn).2.rootPath path = false) →
      strIsPrefixOf c.rootPath path = true →
      getConnectionByPath (pre ++ (k, c) :: post) path = some c := by
  intro pre k c post path hpre hc
  induction pre with
  | nil => simp [getConnectionByPath, hc]
  | cons e rest ih =>
      obtain ⟨k0, c0⟩ := e
      have he : strIsPrefixOf c0.rootPath path = false := hpre (k0, c0) (by simp)
      rw [List.cons_append, getConnectionByPath, he]
      simp only [Bool.false_eq_true, if_false]
      exact ih (fun x hx => hpre x (by simp [hx]))

/-- The lookup fails exactly when no registered connection has its root as a
prefix of the document path. -/
theorem getConnectionByPath_none_iff :
    ∀ (conns : List (String × Conn)) (path : String),
      getConnectionByPath conns path = none ↔
        ∀ e ∈ conns, strIsPrefixOf (e : String × Conn).2.rootPath path = false := by
  intro conns path
  induction conns with
  | nil => simp [getConnectionByPath]
  | cons e rest ih =>
      obtain ⟨k, c0⟩ := e
      by_cases hp : strIsPrefixOf c0.rootPath path = true
      · simp [getConnectionByPath, hp]
      · simp only [getConnectionByPath, hp, if_false, Bool.false_eq_true]
        simp only [ih, List.mem_cons]
        constructor
        · intro hrest e he
          rcases he with he | he
          · subst he
            simpa using hp
          · exact hrest e he
        · intro hall e he
          exact hall e (Or.inr he)

/-- The returned connection is a value of the connections map. -/
theorem getConnectionByPath_mem :
    ∀ (conns : List (String × Conn)) (path : String) (c : Conn),
      getConnectionByPath conns path = some c → ∃ k, (k, c) ∈ conns := by
  intro conns path c
  induction conns with
  | nil => intro h; exact absurd h (by simp [getConnectionByPath])
  | cons e rest ih =>
      obtain ⟨k, c0⟩ := e
      intro h
      rw [getConnectionByPath] at h
      by_cases hp : strIsPrefixOf c0.rootPath path = true
      · rw [if_pos hp] at h
        cases h
        exact ⟨k, by simp⟩
      · rw [if_neg hp] at h
        obtain ⟨k1, hk1⟩ := ih h
        exact ⟨k1, by simp [hk1]⟩

/-! Claim theorems. -/

/-- Claim C1: the claim states that two successive path-change handler
invocations never interleave: the second runs only after the first has fully
settled, including its creation promises. The code does not ensure this:
`activate` builds `pathsQueue` but never reassigns it, so every notification
runs `handlePaths` immediately. This theorem evaluates the code at the
failing input: after the notification `["/a"]` a creation promise for `/a`
is still pending; the second notification `[]` then runs its removal and
creation logic before that promise settles, and the late settlement registers
a connection for `/a`, so the final key set is `{/a}` although under the
claimed serialization the same two batches leave the key set empty. -/
theorem c1_queue_interleaving :
    (runTrace env0 [Event.pathsChanged ["/a"]]).pending = ["/a"] ∧
    keysOf (runTrace env0
      [Event.pathsChanged ["/a"], Event.pathsChanged [], Event.complete 0]).connections =
      ["/a"] ∧
    keysOf (runPathBatches env0 [["/a"], []]).connections = [] := by
  refine ⟨rfl, rfl, rfl⟩

/-- Claim C3: the claim states that no sequence of `handlePaths` calls can
create two live Connections bound to the same canonical project path. The
code checks `connections.has(newPath)` on the raw path but registers under
the resolved path, so the single call `handlePaths(["/sym", "/real"])` with
`realPath("/sym") = "/real"` and the marker file present spawns two
creations for the same root: two live Connections rooted at `/real` exist,
the first leaked (overwritten in the map, never destroyed, still registered
with the linter). -/
theorem c3_duplicate_live :
    liveConnsAt (runTrace env3
      [Event.pathsChanged ["/sym", "/real"], Event.complete 0, Event.complete 0]) "/real" = 2 ∧
    (runTrace env3
      [Event.pathsChanged ["/sym", "/real"], Event.complete 0, Event.complete 0]).destroyed = [] ∧
    (runTrace env3
      [Event.pathsChanged ["/sym", "/real"], Event.complete 0, Event.complete 0]).linterConns =
      [0, 1] ∧
    keysOf (runTrace env3
      [Event.pathsChanged ["/sym", "/real"], Event.complete 0, Event.complete 0]).connections =
      ["/real"] := by
  refine ⟨rfl, rfl, rfl, rfl⟩

/-- Claim C5: a `compile:error` message whose descriptor has a `loc` field
with 1-based line and column is routed to the diagnostics sink as a
diagnostic of type `Error` on the descriptor's file, with range
`[[line-1, column-1], [line-1, column]]`, and dispatching the message on a
live connection appends exactly that `setError` call to the sink log. -/
theorem c5_positioned_error (env : Env) (s : St) (connId : Nat) (e : ErrDesc) (l c : Int)
    (h : e.loc = some { line := l, column := c }) (hlive : isLive s connId = true) :
    routeCompileError env e = [RAction.setErr e.fileName (some (positionedDiag env e l c))] ∧
    (step env s (Event.message connId (Msg.compileError e))).log =
      s.log ++ [LogE.linterSetError connId e.fileName (some (positionedDiag env e l c))] := by
  constructor
  · simp [routeCompileError, h, positionedDiag]
  · simp [step, hlive, handleMessage, routeCompileError, h, applyAction, positionedDiag]

/-- Witness for C5 at the instance in the claim: `loc = {line: 5, column: 3}`
on file `a.js` yields the diagnostic range `[[4, 2], [4, 3]]`. -/
theorem c5_positioned_error_witness :
    routeCompileError env0
      { loc := some { line := 5, column := 3 }, message := "m", stack := "st",
        fileName := "a.js" } =
      [RAction.setErr "a.js"
        (some { type := "Error", text := "m", filePath := "a.js",
                range := ((4, 2), (4, 3)) })] ∧
    (step env0 sDemo (Event.message 0 (Msg.compileError
      { loc := some { line := 5, column := 3 }, message := "m", stack := "st",
        fileName := "a.js" }))).log =
      sDemo.log ++ [LogE.linterSetError 0 "a.js"
        (some { type := "Error", text := "m", filePath := "a.js",
                range := ((4, 2), (4, 3)) })] := by
  have h := c5_positioned_error env0 sDemo 0
    { loc := some { line := 5, column := 3 }, message := "m", stack := "st", fileName := "a.js" }
    5 3 rfl (by decide)
  exact ⟨by simpa [positionedDiag, env0] using h.1, by simpa [positionedDiag, env0] using h.2⟩

/-- Claim C6: a `compile:error` message whose descriptor has no `loc` field
produces exactly one generic error notification (`showError` with the
`[Compiler-Error]`-prefixed message and the stack trace) and pushes no
diagnostic to the sink: routing yields that single action, and dispatching
the message on a live connection appends only the `showError` call. -/
theorem c6_unpositioned_error (env : Env) (s : St) (connId : Nat) (e : ErrDesc)
    (h : e.loc = none) (hlive : isLive s connId = true) :
    routeCompileError env e =
      [RAction.showErr ("[Compiler-Error] " ++ e.message) e.stack] ∧
    (step env s (Event.message connId (Msg.compileError e))).log =
      s.log ++ [LogE.showError ("[Compiler-Error] " ++ e.message) e.stack] := by
  constructor
  · simp [routeCompileError, h]
  · simp [step, hlive, handleMessage, routeCompileError, h, applyAction]

/-- Witness for C6: a concrete descriptor without `loc`, dispatched on the
live connection of `sDemo`. -/
theorem c6_unpositioned_error_witness :
    routeCompileError env0 { loc := none, message := "boom", stack := "tr", fileName := "a.js" } =
      [RAction.showErr "[Compiler-Error] boom" "tr"] ∧
    (step env0 sDemo (Event.message 0 (Msg.compileError
      { loc := none, message := "boom", stack := "tr", fileName := "a.js" }))).log =
      sDemo.log ++ [LogE.showError "[Compiler-Error] boom" "tr"] := by
  have h := c6_unpositioned_error env0 sDemo 0
    { loc := none, message := "boom", stack := "tr", fileName := "a.js" } rfl (by decide)
  exact ⟨by simpa using h.1, by simpa using h.2⟩

/-- Claim C9: `getConnectionByPath` matches by raw string prefix
(`path.indexOf(connection.getPath()) === 0`, i.e. the root path is a prefix
of the document path as strings) with no separator boundary check, and
returns the first match in map insertion order: every returned connection has
its root as a raw prefix of the path; a connection preceded only by
non-matching entries is returned whenever its root is a prefix; concretely,
the document `/rootother/x.js` matches the connection rooted at `/root`, and
with roots `/a` then `/ab` both matching, the first inserted (`/a`) wins. -/
theorem c9_raw_prefix_match :
    (∀ (conns : List (String × Conn)) (path : String) (c : Conn),
        getConnectionByPath conns path = some c → strIsPrefixOf c.rootPath path = true) ∧
    (∀ (pre : List (String × Conn)) (k : String) (c : Conn) (post : List (String × Conn))
        (path : String),
        (∀ e ∈ pre, strIsPrefixOf (e : String × Conn).2.rootPath path = false) →
        strIsPrefixOf c.rootPath path = true →
        getConnectionByPath (pre ++ (k, c) :: post) path = some c) ∧
    getConnectionByPath [("/root", { id := 0, rootPath := "/root" })] "/rootother/x.js" =
      some { id := 0, rootPath := "/root" } ∧
    getConnectionByPath
      [("/a", { id := 0, rootPath := "/a" }), ("/ab", { id := 1, rootPath := "/ab" })]
      "/ab/x.js" = some { id := 0, rootPath := "/a" } :=
  ⟨getConnectionByPath_rootMatch, getConnectionByPath_firstMatch, by decide, by decide⟩

/-- Witness for C9: the first-match part applied to a concrete registry in
which an earlier non-matching connection precedes the matching one. -/
theorem c9_raw_prefix_match_witness :
    getConnectionByPath
      [("/x", { id := 9, rootPath := "/x" }), ("/r", { id := 0, rootPath := "/r" })]
      "/r/y.js" = some { id := 0, rootPath := "/r" } :=
  c9_raw_prefix_match.2.1 [("/x", { id := 9, rootPath := "/x" })] "/r"
    { id := 0, rootPath := "/r" } [] "/r/y.js" (by decide) (by decide)

/-- Claim C8: a DocumentBinding is created on document open exactly when
some registered connection has its root path as a prefix of the document
path, it is bound to the connection the lookup yields (whose root is such a
prefix and which is a value of the connections map), and closing the
document removes the binding from the `editors` map without touching the
connections map. Concretely, a document at `/root/src/x.js` opened while the
single connection is rooted at `/root` binds to that connection (and, the
`editors` map being exactly `[(7, 0)]`, to no other), and closing it leaves
the map empty with the connection intact. -/
theorem c8_document_binding :
    (∀ (env : Env) (s : St) (d : Nat) (path : String),
        (∀ e ∈ s.connections, strIsPrefixOf (e : String × Conn).2.rootPath path = false) →
        step env s (Event.openDoc d path) = s) ∧
    (∀ (env : Env) (s : St) (d : Nat) (path : String) (c : Conn),
        getConnectionByPath s.connections path = some c →
        (step env s (Event.openDoc d path)).editors = mapSet s.editors d c.id ∧
        strIsPrefixOf c.rootPath path = true ∧
        ∃ k, (k, c) ∈ s.connections) ∧
    (∀ (env : Env) (s : St) (d : Nat),
        (step env s (Event.closeDoc d)).editors = mapDelete s.editors d ∧
        (step env s (Event.closeDoc d)).connections = s.connections) ∧
    (step env0 sRoot (Event.openDoc 7 "/root/src/x.js")).editors = [(7, 0)] ∧
    (step env0 (step env0 sRoot (Event.openDoc 7 "/root/src/x.js"))
      (Event.closeDoc 7)).editors = [] ∧
    (step env0 (step env0 sRoot (Event.openDoc 7 "/root/src/x.js"))
      (Event.closeDoc 7)).connections = sRoot.connections := by
  refine ⟨?_, ?_, ?_, by decide, by decide, by decide⟩
  · intro env s d path hnone
    have h : getConnectionByPath s.connections path = none :=
      (getConnectionByPath_none_iff s.connections path).2 hnone
    show observeEditor s d path = s
    unfold observeEditor
    rw [h]
  · intro env s d path c h
    refine ⟨?_, getConnectionByPath_rootMatch s.connections path c h,
            getConnectionByPath_mem s.connections path c h⟩
    show (observeEditor s d path).editors = mapSet s.editors d c.id
    unfold observeEditor
    rw [h]
  · intro env s d
    exact ⟨rfl, rfl⟩

/-- Witness for C8: the no-match part at a path under no registered root,
and the match part at the `/root` registry. -/
theorem c8_document_binding_witness :
    step env0 sRoot (Event.openDoc 3 "/elsewhere/y.js") = sRoot ∧
    (step env0 sRoot (Event.openDoc 7 "/root/src/x.js")).editors =
      mapSet sRoot.editors 7 0 := by
  refine ⟨c8_document_binding.1 env0 sRoot 3 "/elsewhere/y.js" (by decide), ?_⟩
  exact (c8_document_binding.2.1 env0 sRoot 7 "/root/src/x.js"
    { id := 0, rootPath := "/root" } (by decide)).1

theorem removeOne_config (paths : List String) (st : St) (k : String) :
    (removeOne paths st k).config = st.config := by
  unfold removeOne
  split
  · rfl
  · split <;> rfl

theorem foldl_removeOne_config (paths : List String) :
    ∀ (ks : List String) (s : St), (ks.foldl (removeOne paths) s).config = s.config := by
  intro ks
  induction ks with
  | nil => intro s; rfl
  | cons k rest ih =>
      intro s
      rw [List.foldl_cons, ih, removeOne_config]

theorem runCreation_config (env : Env) (st : St) (p : String) :
    (runCreation env st p).1.config = st.config := by
  unfold runCreation
  split
  · rfl
  · split
    · split <;> rfl
    · rfl

theorem applyAction_config (connId : Nat) (st : St) (a : RAction) :
    (applyAction connId st a).config = st.config := by
  cases a <;> rfl

theorem foldl_applyAction_config (connId : Nat) :
    ∀ (acts : List RAction) (s : St), (acts.foldl (applyAction connId) s).config = s.config := by
  intro acts
  induction acts with
  | nil => intro s; rfl
  | cons a rest ih =>
      intro s
      rw [List.foldl_cons, ih, applyAction_config]

theorem step_config (env : Env) (st : St) (ev : Event) :
    (step env st ev).config = st.config := by
  cases ev with
  | pathsChanged paths =>
      show (handlePathsStart st paths).config = st.config
      unfold handlePathsStart removeDeleted
      rw [foldl_removeOne_config]
  | complete i =>
      show (match st.pending.get? i with
            | some p => (runCreation env { st with pending := st.pending.eraseIdx i } p).1
            | none => st).config = st.config
      split
      · rw [runCreation_config]
      · rfl
  | openDoc d path =>
      show (observeEditor st d path).config = st.config
      unfold observeEditor
      split <;> rfl
  | closeDoc d => rfl
  | message c m =>
      show (if isLive st c then handleMessage env st c m else st).config = st.config
      split
      · cases m with
        | compileError e =>
            show ((routeCompileError env e).foldl (applyAction c) st).config = st.config
            rw [foldl_applyAction_config]
        | compileSuccess p => rfl
      · rfl

theorem foldl_step_config (env : Env) :
    ∀ (t : List Event) (s : St), (t.foldl (step env) s).config = s.config := by
  intro t
  induction t with
  | nil => intro s; rfl
  | cons e rest ih =>
      intro s
      rw [List.foldl_cons, ih, step_config]

/-- Claim C10: `dispose()` begins with `this.config.clear()`, and `config` is
a field no constructor or method ever assigns, so on every reachable `Flint`
state it is `undefined`; the call therefore throws a `TypeError` before the
`editors` map is cleared or the subscriptions are disposed (the error return
carries no successor state, so neither later effect happens). -/
theorem c10_dispose_throws (env : Env) (t : List Event) :
    (runTrace env t).config = none ∧
    dispose (runTrace env t) = Except.error "TypeError" := by
  have hc : (runTrace env t).config = none := foldl_step_config env t flintInit
  refine ⟨hc, ?_⟩
  unfold dispose
  rw [hc]

/-- Claim C7: connection-creation failure never propagates. With the marker
file absent the creation settles with no state change and no rejection; with
the marker present but transport establishment failing, the failure is
logged (`console.error`) and no connection is registered; and the promise
returned by `handlePaths` (`Promise.all(promises).catch(...)`) never
rejects, whatever the environment does. -/
theorem c7_nonpropagating :
    (∀ (env : Env) (st : St) (p r : String),
        env.realPathOf p = Except.ok r → env.fileExists (configPathOf r) = false →
        runCreation env st p = (st, none)) ∧
    (∀ (env : Env) (st : St) (p r : String),
        env.realPathOf p = Except.ok r → env.fileExists (configPathOf r) = true →
        env.createOk r = false →
        (runCreation env st p).1.connections = st.connections ∧
        (runCreation env st p).1.log =
          st.log ++ [LogE.consoleError "Flint channel creation failed"] ∧
        (runCreation env st p).2 = none) ∧
    (∀ (env : Env) (st : St) (paths : List String), (handlePaths env st paths).2 = none) := by
  refine ⟨?_, ?_, ?_⟩
  · intro env st p r h1 h2
    unfold runCreation
    rw [h1]
    simp [h2]
  · intro env st p r h1 h2 h3
    unfold runCreation
    rw [h1]
    simp [h2, h3]
  · intro env st paths
    unfold handlePaths
    dsimp only
    split <;> rfl

/-- Witness for C7: the marker-absent case at `/x` in `env0`, the
establishment-failure case at `/a` in `envCx`, and a full `handlePaths`
call in `env0`. -/
theorem c7_nonpropagating_witness :
    runCreation env0 flintInit "/x" = (flintInit, none) ∧
    ((runCreation envCx flintInit "/a").1.connections = flintInit.connections ∧
      (runCreation envCx flintInit "/a").1.log =
        flintInit.log ++ [LogE.consoleError "Flint channel creation failed"] ∧
      (runCreation envCx flintInit "/a").2 = none) ∧
    (handlePaths env0 flintInit ["/a"]).2 = none :=
  ⟨c7_nonpropagating.1 env0 flintInit "/x" "/x" rfl (by decide),
   c7_nonpropagating.2.1 envCx flintInit "/a" "/a" rfl rfl rfl,
   c7_nonpropagating.2.2 env0 flintInit ["/a"]⟩

theorem mapHas_iff {α : Type} (m : List (String × α)) (k : String) :
    mapHas m k = true ↔ k ∈ keysOf m := by
  simp [mapHas, keysOf, List.any_eq_true, List.mem_map]

theorem keysOf_mapSet {α : Type} (m : List (String × α)) (k : String) (v : α) :
    keysOf (mapSet m k v) = if mapHas m k then keysOf m else keysOf m ++ [k] := by
  unfold mapSet
  by_cases hh : mapHas m k = true
  · rw [if_pos hh, if_pos hh]
    unfold keysOf
    rw [List.map_map]
    apply List.map_congr_left
    intro e he
    by_cases hbe : (e.1 == k) = true
    · simp only [Function.comp_apply, if_pos hbe]
      exact (beq_iff_eq.1 hbe).symm
    · simp [Function.comp, hbe]
  · rw [if_neg hh, if_neg hh]
    unfold keysOf
    rw [List.map_append]
    rfl

theorem mem_keysOf_mapSet {α : Type} (m : List (String × α)) (k : String) (v : α) (a : String) :
    a ∈ keysOf (mapSet m k v) ↔ a ∈ keysOf m ∨ a = k := by
  rw [keysOf_mapSet]
  by_cases hh : mapHas m k = true
  · rw [if_pos hh]
    constructor
    · exact Or.inl
    · rintro (h | rfl)
      · exact h
      · exact (mapHas_iff m a).1 hh
  · rw [if_neg hh]
    simp [List.mem_append]

theorem mem_keysOf_mapDelete {α : Type} (m : List (String × α)) (k0 a : String) :
    a ∈ keysOf (mapDelete m k0) ↔ a ∈ keysOf m ∧ a ≠ k0 := by
  simp only [mapDelete, keysOf, List.mem_map, List.mem_filter, bne_iff_ne]
  constructor
  · rintro ⟨e, ⟨he, hne⟩, hfst⟩
    exact ⟨⟨e, he, hfst⟩, hfst ▸ hne⟩
  · rintro ⟨⟨e, he, hfst⟩, hne⟩
    exact ⟨e, ⟨he, hfst.symm ▸ hne⟩, hfst⟩

theorem mapGet_none_iff {α : Type} (m : List (String × α)) (k : String) :
    mapGet m k = none ↔ k ∉ keysOf m := by
  simp only [mapGet, Option.map_eq_none', List.find?_eq_none, keysOf, List.mem_map]
  constructor
  · intro h
    rintro ⟨e, he, hfst⟩
    exact (h e he) (beq_iff_eq.2 hfst)
  · intro h e he hbe
    exact h ⟨e, he, beq_iff_eq.1 hbe⟩

theorem removeOne_eq_self_of_contains {paths : List String} {st : St} {k0 : String}
    (h : paths.contains k0 = true) : removeOne paths st k0 = st := by
  unfold removeOne
  rw [if_pos h]

theorem removeOne_eq_self_of_absent {paths : List String} {st : St} {k0 : String}
    (h1 : ¬paths.contains k0 = true) (h2 : mapGet st.connections k0 = none) :
    removeOne paths st k0 = st := by
  unfold removeOne
  rw [if_neg h1, h2]

theorem removeOne_connections_some {paths : List String} {st : St} {k0 : String} {c : Conn}
    (h1 : ¬paths.contains k0 = true) (h2 : mapGet st.connections k0 = some c) :
    (removeOne paths st k0).connections = mapDelete st.connections k0 := by
  unfold removeOne
  rw [if_neg h1, h2]
  rfl

theorem mem_keysOf_removeFold (paths : List String) :
    ∀ (ks : List String) (s : St) (k : String),
      k ∈ keysOf ((ks.foldl (removeOne paths) s).connections) ↔
        k ∈ keysOf s.connections ∧ (k ∈ ks → paths.contains k = true) := by
  intro ks
  induction ks with
  | nil =>
      intro s k
      simp
  | cons k0 rest ih =>
      intro s k
      rw [List.foldl_cons]
      by_cases hc : paths.contains k0 = true
      · rw [removeOne_eq_self_of_contains hc, ih]
        constructor
        · rintro ⟨hk, himp⟩
          refine ⟨hk, fun hmem => ?_⟩
          rcases List.mem_cons.1 hmem with rfl | hmem2
          · exact hc
          · exact himp hmem2
        · rintro ⟨hk, himp⟩
          exact ⟨hk, fun hm => himp (List.mem_cons.2 (Or.inr hm))⟩
      · cases hget : mapGet s.connections k0 with
        | none =>
            have hnk : k0 ∉ keysOf s.connections := (mapGet_none_iff _ _).1 hget
            rw [removeOne_eq_self_of_absent hc hget, ih]
            constructor
            · rintro ⟨hk, himp⟩
              refine ⟨hk, fun hm => ?_⟩
              rcases List.mem_cons.1 hm with rfl | hm2
              · exact absurd hk hnk
              · exact himp hm2
            · rintro ⟨hk, himp⟩
              exact ⟨hk, fun hm => himp (List.mem_cons.2 (Or.inr hm))⟩
        | some c =>
            rw [ih, removeOne_connections_some hc hget, mem_keysOf_mapDelete]
            constructor
            · rintro ⟨⟨hk, hne⟩, himp⟩
              refine ⟨hk, fun hm => ?_⟩
              rcases List.mem_cons.1 hm with rfl | hm2
              · exact absurd rfl hne
              · exact himp hm2
            · rintro ⟨hk, himp⟩
              by_cases hkk : k = k0
              · subst hkk
                exact absurd (himp (List.mem_cons.2 (Or.inl rfl))) hc
              · exact ⟨⟨hk, hkk⟩, fun hm => himp (List.mem_cons.2 (Or.inr hm))⟩

theorem mem_keysOf_removeDeleted (s : St) (paths : List String) (k : String) :
    k ∈ keysOf (removeDeleted s paths).connections ↔
      k ∈ keysOf s.connections ∧ paths.contains k = true := by
  unfold removeDeleted
  rw [mem_keysOf_removeFold]
  constructor
  · rintro ⟨hk, himp⟩
    exact ⟨hk, himp hk⟩
  · rintro ⟨hk, hcont⟩
    exact ⟨hk, fun _ => hcont⟩

theorem mem_keysOf_runCreationsSt (env : Env) :
    ∀ (ps : List String) (s : St) (k : String),
      k ∈ keysOf ((runCreationsSt env s ps).connections) ↔
        k ∈ keysOf s.connections ∨ k ∈ createdPaths env ps := by
  intro ps
  induction ps with
  | nil =>
      intro s k
      simp [runCreationsSt, createdPaths]
  | cons p rest ih =>
      intro s k
      have hstep : runCreationsSt env s (p :: rest) =
          runCreationsSt env (runCreation env s p).1 rest := by
        unfold runCreationsSt
        rw [List.foldl_cons]
      rw [hstep, ih]
      cases hr : env.realPathOf p with
      | error e =>
          have h1 : (runCreation env s p).1 = s := by
            simp [runCreation, hr]
          have h2 : createdPaths env (p :: rest) = createdPaths env rest := by
            simp [createdPaths, hr]
          rw [h1, h2]
      | ok r =>
          by_cases hf : env.fileExists (configPathOf r) = true
          · by_cases hcr : env.createOk r = true
            · have h1 : (runCreation env s p).1 = handleConnection s r := by
                simp [runCreation, hr, hf, hcr]
              have h2 : createdPaths env (p :: rest) = r :: createdPaths env rest := by
                simp [createdPaths, hr, hf, hcr]
              have h3 : (handleConnection s r).connections =
                  mapSet s.connections r { id := s.nextId, rootPath := r } := rfl
              rw [h1, h2, h3, mem_keysOf_mapSet, List.mem_cons]
              tauto
            · have h1 : (runCreation env s p).1.connections = s.connections := by
                simp [runCreation, hr, hf, hcr]
              have h2 : createdPaths env (p :: rest) = createdPaths env rest := by
                simp [createdPaths, hr, hf, hcr]
              rw [h1, h2]
          · have h1 : (runCreation env s p).1.connections = s.connections := by
              simp [runCreation, hr, hf]
            have h2 : createdPaths env (p :: rest) = createdPaths env rest := by
              simp [createdPaths, hr, hf]
            rw [h1, h2]

theorem handlePaths_connections (env : Env) (s : St) (paths : List String) :
    (handlePaths env s paths).1.connections =
      (runCreationsSt env (removeDeleted s paths) (newProjects s paths)).connections := by
  unfold handlePaths
  dsimp only
  split <;> rfl

theorem mem_markerPaths (env : Env) (paths : List String) (k : String) :
    k ∈ markerPaths env paths ↔
      ∃ p ∈ paths, env.realPathOf p = Except.ok k ∧
        env.fileExists (configPathOf k) = true := by
  unfold markerPaths
  rw [List.mem_filterMap]
  constructor
  · rintro ⟨p, hp, hf⟩
    cases hr : env.realPathOf p with
    | error e =>
        rw [hr] at hf
        exact absurd hf (by simp)
    | ok r =>
        rw [hr] at hf
        dsimp only at hf
        by_cases hfe : env.fileExists (configPathOf r) = true
        · rw [if_pos hfe] at hf
          have hrk : r = k := by injection hf
          subst hrk
          exact ⟨p, hp, hr, hfe⟩
        · rw [if_neg hfe] at hf
          exact absurd hf (by simp)
  · rintro ⟨p, hp, hr, hfe⟩
    refine ⟨p, hp, ?_⟩
    rw [hr]
    dsimp only
    rw [if_pos hfe]

theorem mem_createdPaths (env : Env) (ps : List String) (k : String) :
    k ∈ createdPaths env ps ↔
      ∃ p ∈ ps, env.realPathOf p = Except.ok k ∧
        env.fileExists (configPathOf k) = true ∧ env.createOk k = true := by
  unfold createdPaths
  rw [List.mem_filterMap]
  constructor
  · rintro ⟨p, hp, hf⟩
    cases hr : env.realPathOf p with
    | error e =>
        rw [hr] at hf
        exact absurd hf (by simp)
    | ok r =>
        rw [hr] at hf
        dsimp only at hf
        by_cases hcond : (env.fileExists (configPathOf r) && env.createOk r) = true
        · rw [if_pos hcond] at hf
          have hrk : r = k := by injection hf
          rw [hrk] at hcond hr
          obtain ⟨h1, h2⟩ : env.fileExists (configPathOf k) = true ∧ env.createOk k = true := by
            simpa using hcond
          exact ⟨p, hp, hr, h1, h2⟩
        · rw [if_neg hcond] at hf
          exact absurd hf (by simp)
  · rintro ⟨p, hp, hr, hfe, hcr⟩
    refine ⟨p, hp, ?_⟩
    rw [hr]
    dsimp only
    rw [if_pos (show (env.fileExists (configPathOf k) && env.createOk k) = true by
      simp [hfe, hcr])]

theorem mem_newProjects (s : St) (paths : List String) (p : String) :
    p ∈ newProjects s paths ↔ p ∈ paths ∧ p ∉ keysOf s.connections := by
  unfold newProjects
  rw [List.mem_filter]
  constructor
  · rintro ⟨hp, hb⟩
    refine ⟨hp, fun hm => ?_⟩
    rw [(mapHas_iff _ _).2 hm] at hb
    exact absurd hb (by simp)
  · rintro ⟨hp, hnm⟩
    refine ⟨hp, ?_⟩
    cases hmh : mapHas s.connections p with
    | false => simp
    | true => exact absurd ((mapHas_iff _ _).1 hmh) hnm

theorem handlePaths_keys_iff (env : Env) (s : St) (paths : List String)
    (hok : ∀ r, env.fileExists (configPathOf r) = true → env.createOk r = true)
    (hinv : KInv env s) :
    ∀ k, k ∈ keysOf (handlePaths env s paths).1.connections ↔ k ∈ markerPaths env paths := by
  intro k
  rw [handlePaths_connections, mem_keysOf_runCreationsSt, mem_keysOf_removeDeleted,
      mem_markerPaths, mem_createdPaths]
  constructor
  · rintro (⟨hk, hc⟩ | ⟨p, hp, hr, hf, _⟩)
    · obtain ⟨hrk, hfk⟩ := hinv k hk
      exact ⟨k, contains_iff.1 hc, hrk, hfk⟩
    · exact ⟨p, ((mem_newProjects s paths p).1 hp).1, hr, hf⟩
  · rintro ⟨p, hp, hr, hf⟩
    by_cases hpk : p ∈ keysOf s.connections
    · obtain ⟨hrp, _⟩ := hinv p hpk
      have hpkk : p = k := by
        rw [hrp] at hr
        injection hr
      subst hpkk
      exact Or.inl ⟨hpk, contains_iff.2 hp⟩
    · exact Or.inr ⟨p, (mem_newProjects s paths p).2 ⟨hp, hpk⟩, hr, hf, hok k hf⟩

theorem handlePaths_KInv (env : Env) (s : St) (paths : List String)
    (hinv : KInv env s) :
    KInv env (handlePaths env s paths).1 := by
  intro k hk
  rw [handlePaths_connections, mem_keysOf_runCreationsSt, mem_keysOf_removeDeleted] at hk
  rcases hk with ⟨hk, _⟩ | hkc
  · exact hinv k hk
  · rw [mem_createdPaths] at hkc
    obtain ⟨p, _, hr, hf, _⟩ := hkc
    exact ⟨env.realIdem p k hr, hf⟩

theorem sameKeySet_of_iff {a b : List String} (h : ∀ k, k ∈ a ↔ k ∈ b) :
    sameKeySet a b = true := by
  unfold sameKeySet
  rw [Bool.and_eq_true, List.all_eq_true, List.all_eq_true]
  exact ⟨fun k hk => contains_iff.2 ((h k).1 hk),
         fun k hk => contains_iff.2 ((h k).2 hk)⟩

theorem KInv_runPathBatches (env : Env) :
    ∀ (bs : List (List String)) (s : St), KInv env s →
      KInv env (bs.foldl (fun s b => (handlePaths env s b).1) s) := by
  intro bs
  induction bs with
  | nil => intro s h; exact h
  | cons b rest ih =>
      intro s h
      rw [List.foldl_cons]
      exact ih _ (handlePaths_KInv env s b h)

/-- Counterexample to claim C2 as stated: with the marker file present at
`/a` but transport establishment failing, the single call
`handlePaths(["/a"])` settles with an empty key set, while the claim
predicts the key set `{/a}` (the marker-bearing paths of the most recent
call). -/
theorem c2_counterexample :
    sameKeySet (keysOf (runPathBatches envCx [["/a"]]).connections)
      (markerPaths envCx ["/a"]) = false ∧
    keysOf (runPathBatches envCx [["/a"]]).connections = [] ∧
    markerPaths envCx ["/a"] = ["/a"] :=
  ⟨rfl, rfl, rfl⟩

/-- Claim C2 (amended): under serialized execution of the `handlePaths`
calls (each call and the creation promises it spawned settle before the next
call, the discipline the spec's serializer intends), and provided transport
establishment succeeds for every root whose marker file is present, after
the last call settles the key set of the connections map equals exactly the
set of canonical resolved paths of the paths of the most recent call whose
marker file `.flint/.internal/state.json` is present (canonical resolution
being idempotent is part of the environment model). -/
theorem c2_converges (env : Env) (bs : List (List String)) (last : List String)
    (hok : ∀ r, env.fileExists (configPathOf r) = true → env.createOk r = true) :
    sameKeySet (keysOf (runPathBatches env (bs ++ [last])).connections)
      (markerPaths env last) = true := by
  have hinit : KInv env flintInit := by
    intro k hk
    exact absurd hk (by simp [flintInit, keysOf])
  have hpre : KInv env (bs.foldl (fun s b => (handlePaths env s b).1) flintInit) :=
    KInv_runPathBatches env bs flintInit hinit
  have hfold : runPathBatches env (bs ++ [last]) =
      (handlePaths env (bs.foldl (fun s b => (handlePaths env s b).1) flintInit) last).1 := by
    unfold runPathBatches
    rw [List.foldl_append]
    rfl
  rw [hfold]
  exact sameKeySet_of_iff (handlePaths_keys_iff env _ last hok hpre)

/-- Witness for C2 (amended): a two-batch serialized run in `env0`; the
final key set is `{/a}`, the marker-bearing member of the last batch. -/
theorem c2_converges_witness :
    sameKeySet (keysOf (runPathBatches env0 ([["/b"]] ++ [["/a", "/b"]])).connections)
      (markerPaths env0 ["/a", "/b"]) = true :=
  c2_converges env0 [["/b"]] ["/a", "/b"] (fun _ _ => rfl)

theorem deadSet_append : ∀ (l1 l2 : List LogE) (d : List Nat),
    deadSet d (l1 ++ l2) = deadSet (deadSet d l1) l2 := by
  intro l1
  induction l1 with
  | nil => intro l2 d; rfl
  | cons e rest ih =>
      intro l2 d
      cases e <;> exact ih _ _

theorem setErrorOk_append : ∀ (l1 l2 : List LogE) (d : List Nat),
    setErrorOk d (l1 ++ l2) = (setErrorOk d l1 && setErrorOk (deadSet d l1) l2) := by
  intro l1
  induction l1 with
  | nil => intro l2 d; simp [setErrorOk, deadSet]
  | cons e rest ih =>
      intro l2 d
      cases e with
      | linterSetError c fp dg =>
          show (!(d.contains c) && setErrorOk d (rest ++ l2)) =
            ((!(d.contains c) && setErrorOk d rest) && setErrorOk (deadSet d rest) l2)
          rw [ih l2 d, Bool.and_assoc]
      | connDestroy c => exact ih l2 (c :: d)
      | linterRegister c => exact ih l2 d
      | linterUnregister c => exact ih l2 d
      | showError m st2 => exact ih l2 d
      | consoleError m => exact ih l2 d
      | connDiscard c => exact ih l2 d

theorem discardOk_append : ∀ (l1 l2 : List LogE) (u : List Nat),
    discardOk u (l1 ++ l2) = (discardOk u l1 && discardOk (unregSet u l1) l2) := by
  intro l1
  induction l1 with
  | nil => intro l2 u; simp [discardOk, unregSet]
  | cons e rest ih =>
      intro l2 u
      cases e with
      | linterUnregister c => exact ih l2 (c :: u)
      | connDiscard c =>
          show (u.contains c && discardOk u (rest ++ l2)) =
            ((u.contains c && discardOk u rest) && discardOk (unregSet u rest) l2)
          rw [ih l2 u, Bool.and_assoc]
      | linterRegister c => exact ih l2 u
      | linterSetError c fp dg => exact ih l2 u
      | showError m st2 => exact ih l2 u
      | consoleError m => exact ih l2 u
      | connDestroy c => exact ih l2 u

theorem mapGet_some_mem {α : Type} {m : List (String × α)} {k : String} {v : α}
    (h : mapGet m k = some v) : ∃ k0, (k0, v) ∈ m := by
  unfold mapGet at h
  cases hf : m.find? (fun e => e.1 == k) with
  | none =>
      rw [hf] at h
      exact absurd h (by simp)
  | some e =>
      rw [hf] at h
      have hev : e.2 = v := by
        dsimp only [Option.map] at h
        injection h
      have hm := List.mem_of_find?_eq_some hf
      refine ⟨e.1, ?_⟩
      have he : (e.1, v) = e := by
        rw [← hev]
      rw [he]
      exact hm

theorem safety_log_setError (s : St) (c : Nat) (fp : String) (dg : Option Diagnostic)
    (h : SafetyInv s) (hdead : c ∉ deadSet [] s.log) :
    SafetyInv { s with log := s.log ++ [LogE.linterSetError c fp dg] } := by
  refine ⟨h.connBound, h.destBound, h.disj, ?_, ?_, ?_⟩
  · intro i
    rw [deadSet_append]
    exact h.deadEq i
  · rw [setErrorOk_append, h.seOk]
    have hdc : (deadSet [] s.log).contains c = false := by
      cases hdc : (deadSet [] s.log).contains c with
      | false => rfl
      | true => exact absurd (contains_iff.1 hdc) hdead
    show (true && (!((deadSet [] s.log).contains c) &&
      setErrorOk (deadSet [] s.log) [])) = true
    rw [hdc]
    rfl
  · rw [discardOk_append, h.dOk]
    rfl

theorem safety_log_show (s : St) (m st2 : String) (h : SafetyInv s) :
    SafetyInv { s with log := s.log ++ [LogE.showError m st2] } := by
  refine ⟨h.connBound, h.destBound, h.disj, ?_, ?_, ?_⟩
  · intro i
    rw [deadSet_append]
    exact h.deadEq i
  · rw [setErrorOk_append, h.seOk]
    rfl
  · rw [discardOk_append, h.dOk]
    rfl

theorem safety_log_console (s : St) (m : String) (h : SafetyInv s) :
    SafetyInv { s with log := s.log ++ [LogE.consoleError m] } := by
  refine ⟨h.connBound, h.destBound, h.disj, ?_, ?_, ?_⟩
  · intro i
    rw [deadSet_append]
    exact h.deadEq i
  · rw [setErrorOk_append, h.seOk]
    rfl
  · rw [discardOk_append, h.dOk]
    rfl

theorem mem_of_mem_mapSet {α : Type} {m : List (String × α)} {k : String} {v : α}
    {e : String × α} (h : e ∈ mapSet m k v) : e ∈ m ∨ e = (k, v) := by
  unfold mapSet at h
  by_cases hh : mapHas m k = true
  · rw [if_pos hh] at h
    obtain ⟨e0, he0, hfe⟩ := List.mem_map.1 h
    by_cases hbe : (e0.1 == k) = true
    · rw [if_pos hbe] at hfe
      exact Or.inr hfe.symm
    · rw [if_neg hbe] at hfe
      exact Or.inl (hfe ▸ he0)
  · rw [if_neg hh] at h
    rcases List.mem_append.1 h with h1 | h2
    · exact Or.inl h1
    · simp only [List.mem_singleton] at h2
      exact Or.inr h2

theorem safety_handleConnection (s : St) (r : String) (h : SafetyInv s) :
    SafetyInv (handleConnection s r) := by
  refine ⟨?_, ?_, ?_, ?_, ?_, ?_⟩
  · intro e he
    rcases mem_of_mem_mapSet he with hold | hnew
    · exact Nat.lt_succ_of_lt (h.connBound e hold)
    · rw [hnew]
      exact Nat.lt_succ_self s.nextId
  · intro i hi
    exact Nat.lt_succ_of_lt (h.destBound i hi)
  · intro i hi hmem
    rcases List.mem_append.1 hmem with hold | hnew
    · exact h.disj i hi hold
    · simp only [List.mem_singleton] at hnew
      exact absurd hnew (Nat.ne_of_lt (h.destBound i hi))
  · intro i
    rw [show (handleConnection s r).log = s.log ++ [LogE.linterRegister s.nextId] from rfl,
        deadSet_append]
    exact h.deadEq i
  · rw [show (handleConnection s r).log = s.log ++ [LogE.linterRegister s.nextId] from rfl,
        setErrorOk_append, h.seOk]
    rfl
  · rw [show (handleConnection s r).log = s.log ++ [LogE.linterRegister s.nextId] from rfl,
        discardOk_append, h.dOk]
    rfl

theorem safety_removeOne (paths : List String) (s : St) (k0 : String)
    (h : SafetyInv s) : SafetyInv (removeOne paths s k0) := by
  unfold removeOne
  by_cases hc : paths.contains k0 = true
  · rw [if_pos hc]
    exact h
  · rw [if_neg hc]
    cases hget : mapGet s.connections k0 with
    | none => exact h
    | some c =>
        dsimp only
        obtain ⟨kk, hkc⟩ := mapGet_some_mem hget
        have hlt : c.id < s.nextId := h.connBound (kk, c) hkc
        refine ⟨?_, ?_, ?_, ?_, ?_, ?_⟩
        · intro e he
          exact h.connBound e (List.mem_of_mem_filter he)
        · intro i hi
          rcases List.mem_append.1 hi with hold | hnew
          · exact h.destBound i hold
          · simp only [List.mem_singleton] at hnew
            rw [hnew]
            exact hlt
        · intro i hi hmem
          have hmem2 := List.mem_filter.1 hmem
          rcases List.mem_append.1 hi with hold | hnew
          · exact h.disj i hold hmem2.1
          · simp only [List.mem_singleton] at hnew
            rw [hnew] at hmem2
            simp at hmem2
        · intro i
          rw [show (destroyConn s c).log ++ [LogE.connDiscard c.id] =
              s.log ++ [LogE.connDestroy c.id, LogE.linterUnregister c.id,
                LogE.connDiscard c.id] by simp [destroyConn],
              deadSet_append]
          show i ∈ c.id :: deadSet [] s.log ↔ i ∈ s.destroyed ++ [c.id]
          rw [List.mem_cons, h.deadEq i, List.mem_append]
          simp [List.mem_singleton]
          tauto
        · rw [show (destroyConn s c).log ++ [LogE.connDiscard c.id] =
              s.log ++ [LogE.connDestroy c.id, LogE.linterUnregister c.id,
                LogE.connDiscard c.id] by simp [destroyConn],
              setErrorOk_append, h.seOk]
          rfl
        · rw [show (destroyConn s c).log ++ [LogE.connDiscard c.id] =
              s.log ++ [LogE.connDestroy c.id, LogE.linterUnregister c.id,
                LogE.connDiscard c.id] by simp [destroyConn],
              discardOk_append, h.dOk]
          show (true && ((c.id :: unregSet [] s.log).contains c.id && true)) = true
          simp

theorem safety_removeFold (paths : List String) :
    ∀ (ks : List String) (s : St), SafetyInv s →
      SafetyInv (ks.foldl (removeOne paths) s) := by
  intro ks
  induction ks with
  | nil => intro s h; exact h
  | cons k rest ih =>
      intro s h
      rw [List.foldl_cons]
      exact ih _ (safety_removeOne paths s k h)

theorem safety_handlePathsStart (s : St) (paths : List String) (h : SafetyInv s) :
    SafetyInv (handlePathsStart s paths) := by
  unfold handlePathsStart
  apply safety_removeFold
  exact ⟨h.connBound, h.destBound, h.disj, h.deadEq, h.seOk, h.dOk⟩

theorem safety_runCreation (env : Env) (s : St) (p : String) (h : SafetyInv s) :
    SafetyInv (runCreation env s p).1 := by
  unfold runCreation
  cases hr : env.realPathOf p with
  | error e => exact h
  | ok r =>
      dsimp only
      by_cases hf : env.fileExists (configPathOf r) = true
      · rw [if_pos hf]
        by_cases hcr : env.createOk r = true
        · rw [if_pos hcr]
          exact safety_handleConnection s r h
        · rw [if_neg hcr]
          exact safety_log_console s "Flint channel creation failed" h
      · rw [if_neg hf]
        exact h

theorem safety_step (env : Env) (s : St) (ev : Event) (h : SafetyInv s) :
    SafetyInv (step env s ev) := by
  cases ev with
  | pathsChanged paths => exact safety_handlePathsStart s paths h
  | complete i =>
      show SafetyInv (match s.pending.get? i with
        | some p => (runCreation env { s with pending := s.pending.eraseIdx i } p).1
        | none => s)
      cases hg : s.pending.get? i with
      | some p =>
          exact safety_runCreation env _ p
            ⟨h.connBound, h.destBound, h.disj, h.deadEq, h.seOk, h.dOk⟩
      | none => exact h
  | openDoc d path =>
      show SafetyInv (observeEditor s d path)
      unfold observeEditor
      cases hg : getConnectionByPath s.connections path with
      | some c => exact ⟨h.connBound, h.destBound, h.disj, h.deadEq, h.seOk, h.dOk⟩
      | none => exact h
  | closeDoc d =>
      exact ⟨h.connBound, h.destBound, h.disj, h.deadEq, h.seOk, h.dOk⟩
  | message c m =>
      show SafetyInv (if isLive s c then handleMessage env s c m else s)
      by_cases hl : isLive s c = true
      · rw [if_pos hl]
        have hcd : c ∉ s.destroyed := by
          unfold isLive at hl
          simp only [Bool.and_eq_true, Bool.not_eq_true'] at hl
          intro hmem
          rw [contains_iff.2 hmem] at hl
          simp at hl
        have hdead : c ∉ deadSet [] s.log := fun hm => hcd ((h.deadEq c).1 hm)
        cases m with
        | compileSuccess p =>
            exact safety_log_setError s c p none h hdead
        | compileError e =>
            show SafetyInv ((routeCompileError env e).foldl (applyAction c) s)
            cases hloc : e.loc with
            | none =>
                rw [show routeCompileError env e =
                    [RAction.showErr ("[Compiler-Error] " ++ e.message) e.stack] by
                  simp [routeCompileError, hloc]]
                exact safety_log_show s _ _ h
            | some l =>
                rw [show routeCompileError env e =
                    [RAction.setErr e.fileName (some (positionedDiag env e l.line l.column))] by
                  simp [routeCompileError, hloc, positionedDiag]]
                exact safety_log_setError s c e.fileName _ h hdead
      · rw [if_neg hl]
        exact h

theorem safety_init : SafetyInv flintInit := by
  refine ⟨?_, ?_, ?_, ?_, rfl, rfl⟩
  · intro e he
    exact absurd he (List.not_mem_nil e)
  · intro i hi
    exact absurd hi (List.not_mem_nil i)
  · intro i hi
    exact absurd hi (List.not_mem_nil i)
  · intro i
    simp [deadSet, flintInit]

theorem safety_runTrace (env : Env) :
    ∀ (t : List Event) (s : St), SafetyInv s → SafetyInv (t.foldl (step env) s) := by
  intro t
  induction t with
  | nil => intro s h; exact h
  | cons e rest ih =>
      intro s h
      rw [List.foldl_cons]
      exact ih _ (safety_step env s e h)

/-- Claim C4: in every state reachable by any event trace, a destroyed
connection is no longer registered with the diagnostics sink (`destroy()`
runs the `onDidDestroy` handler that unregisters it, before
`connections.delete` drops the object, as the `discardOk` scan of the call
log certifies), and the call log contains no `setError` delivery for a
connection after its destruction (`setErrorOk`). -/
theorem c4_destroy_safety (env : Env) (t : List Event) :
    (∀ i ∈ (runTrace env t).destroyed, i ∉ (runTrace env t).linterConns) ∧
    setErrorOk [] (runTrace env t).log = true ∧
    discardOk [] (runTrace env t).log = true := by
  have h : SafetyInv (runTrace env t) := safety_runTrace env t flintInit safety_init
  exact ⟨h.disj, h.seOk, h.dOk⟩

end Flint


